import Mathlib

/-!
Shallow embedding of `xray_import_results.py` (MagicPod → Xray result
importer).  The conversion core (`map_status`, `convert_magicpod_to_xray`)
is modelled as pure Lean functions over an explicit record type for the
parsed source report; Python `dict.get` with a default becomes
`Option.getD`, a `KeyError` / `UnboundLocalError` becomes an
`Except.error`, and Python's string operations (`in`, `lower`,
`split`, `strip`) are embedded over `List Char`.
-/

namespace XrayImport

/-! Python string primitives -/

/-- Check whether `n` occurs at the start of `h` (over char lists). -/
def needlePref : List Char → List Char → Bool
  | [], _ => true
  | _ :: _, [] => false
  | a :: as, b :: bs => a == b && needlePref as bs

/-- Check whether `n` occurs as a contiguous run inside `h`
(Python's `n in h` on strings, substring containment). -/
def hasSub (n : List Char) : List Char → Bool
  | [] => n.isEmpty
  | b :: bs => needlePref n (b :: bs) || hasSub n bs

/-- Python `needle in hay` on strings. -/
def strIn (needle hay : String) : Bool :=
  hasSub needle.toList hay.toList

/-- Python `s.lower()`, character-wise (agrees with Python on ASCII,
which is all the status labels use). -/
def pyLower (s : String) : String :=
  String.mk (s.toList.map Char.toLower)

/-- Python `s.split(sep)` for a single-character separator `c`. -/
def splitOnChar (c : Char) : List Char → List (List Char)
  | [] => [[]]
  | a :: t =>
    let r := splitOnChar c t
    if a == c then [] :: r
    else
      match r with
      | [] => [[a]]
      | h :: t2 => (a :: h) :: t2

/-- Python `s.split(c)[-1]`: the piece after the last occurrence of `c`
(the whole string when `c` does not occur). -/
def splitLast (c : Char) (l : List Char) : List Char :=
  ((splitOnChar c l).getLast?).getD []

/-- Python `s.strip("]")`: remove every leading and trailing `]`. -/
def stripBr (l : List Char) : List Char :=
  ((((l.dropWhile (fun x => x == ']'))).reverse.dropWhile
      (fun x => x == ']')).reverse)

/-! Source-report data model (parsed JSON), with every field optional
exactly where the code uses `dict.get` with a default, and required
(`KeyError` on absence) where it uses `mp["url"]`. -/

structure TestCaseRef where
  name : Option String
deriving Repr, DecidableEq

structure ResultRecord where
  status : Option String
  test_case : Option TestCaseRef
deriving Repr, DecidableEq

structure DetailGroup where
  results : Option (List ResultRecord)
deriving Repr, DecidableEq

structure TestCases where
  details : Option (List DetailGroup)
deriving Repr, DecidableEq

structure Report where
  url : Option String
  test_cases : Option TestCases
deriving Repr, DecidableEq

/-! Output data model (the Xray execution payload) -/

structure TestInfo where
  summary : String
  type : String
deriving Repr, DecidableEq

structure TestEntry where
  status : String
  comment : String
  testKey : Option String
  testInfo : Option TestInfo
deriving Repr, DecidableEq

structure ExecInfo where
  summary : String
  description : String
deriving Repr, DecidableEq

structure Execution where
  info : ExecInfo
  tests : List TestEntry
deriving Repr, DecidableEq

/-- Runtime errors the conversion function can raise, as Python
exceptions: `mp["url"]` raises `KeyError`; referencing the never-assigned
local `description` raises `UnboundLocalError`. -/
inductive ConvError where
  | keyError (k : String)
  | unboundLocal (v : String)
deriving Repr, DecidableEq

/-! Model of `map_status` (lines 42-51):

```python
def map_status(mp_status: str) -> str:
    mp_status = (mp_status or "").lower()
    if mp_status in ("succeeded"):   # string, not tuple: substring test
        return "PASSED"
    if mp_status in ("failed"):
        return "FAILED"
    if mp_status == "skipped":
        return "TODO"
    return "TODO"
```
`("succeeded")` is a parenthesised string literal, so `in` is Python
substring containment, not tuple membership.  `None` input is turned
into `""` by `(mp_status or "")`. -/

def map_status (mp_status0 : Option String) : String :=
  let mp_status := pyLower (mp_status0.getD "")
  if strIn mp_status "succeeded" then "PASSED"
  else if strIn mp_status "failed" then "FAILED"
  else if mp_status == "skipped" then "TODO"
  else "TODO"

/-! Test-key extraction (lines 79-84):

```python
test_key = None
if "[" in test_name and "]" in test_name:
    candidate = test_name.split("[")[-1].strip("]")
    if "-" in candidate:
        test_key = candidate
```
-/

def extract_test_key (test_name : String) : Option String :=
  if strIn "[" test_name && strIn "]" test_name then
    let candidate := String.mk (stripBr (splitLast '[' test_name.toList))
    if strIn "-" candidate then some candidate else none
  else none

/-- Python `result.get("test_case", {}).get("name", "Unnamed Test")`
(lines 75-76). -/
def testNameOf (result : ResultRecord) : String :=
  ((result.test_case.getD ⟨none⟩).name).getD "Unnamed Test"

/-- One `test_entry` dict as built by the loop body (lines 74-99):
status from `map_status(result.get("status", ""))`, fixed comment
template, then `testKey` when a key was extracted, else `testInfo`. -/
def mkTestEntry (result : ResultRecord) : TestEntry :=
  let test_name := testNameOf result
  let status := map_status (some (result.status.getD ""))
  let comment := "Imported from MagicPod. Original test: " ++ test_name
  match extract_test_key test_name with
  | some k =>
      { status := status, comment := comment, testKey := some k,
        testInfo := none }
  | none =>
      { status := status, comment := comment, testKey := none,
        testInfo := some { summary := test_name, type := "Manual" } }

/-- Python `mp.get("test_cases", {}).get("details", [])` (line 72). -/
def detailsOf (mp : Report) : List DetailGroup :=
  ((mp.test_cases.getD ⟨none⟩).details).getD []

/-- The nested `for detail in details: for result in detail.get("results", []):
execution["tests"].append(test_entry)` loop, as a fold that appends one
entry per visited result record. -/
def buildTests (details : List DetailGroup) : List TestEntry :=
  details.foldl
    (fun acc detail =>
      (detail.results.getD []).foldl
        (fun acc2 result => acc2 ++ [mkTestEntry result]) acc)
    []

/-- Model of `convert_magicpod_to_xray` (lines 54-101), after the file has been
read and parsed into `mp`.  Python's `if not summary:` treats both
`None` and `""` as falsy; only in that branch are the locals `summary`
and `description` assigned from `mp["url"]` (a `KeyError` when absent).
When a non-empty summary is supplied, the branch is skipped and building
the `execution` dict references the never-assigned local `description`,
raising `UnboundLocalError` before any test entry is built. -/
def convert_magicpod_to_xray (mp : Report) (summary : Option String) :
    Except ConvError Execution :=
  let summaryFalsy :=
    match summary with
    | none => true
    | some s => s == ""
  if summaryFalsy then
    match mp.url with
    | none => .error (.keyError "url")
    | some u =>
        .ok { info :=
                { summary := "MagicPod Batch Run: " ++ u,
                  description :=
                    "Imported automatically from MagicPod. \n MagicPod URL: "
                      ++ u },
              tests := buildTests (detailsOf mp) }
  else .error (.unboundLocal "description")

/-! The `__main__` entry point (lines 104-134), as an event trace

The ambient world supplies the input file's parse result (`none` models
a missing, unreadable or unparseable file) and a wall-clock value that
the program never reads (`datetime` is imported but unused).  With
credentials present, line 126 constructs `XrayResultImporter`, whose
`__init__` immediately performs the authentication network request;
only then does line 127 call `convert_magicpod_to_xray`, which opens
and parses the input file; the import network request follows a
successful conversion. -/

structure World where
  fileContent : Option Report
  now : Nat
deriving Repr, DecidableEq

inductive ProgError where
  | inputFormat
  | conv (e : ConvError)
deriving Repr, DecidableEq

/-- `convert_magicpod_to_xray` including the file read: reading or
parsing fails exactly when the world holds no parsed report. -/
def convertFromWorld (w : World) (summary : Option String) :
    Except ProgError Execution :=
  match w.fileContent with
  | none => .error .inputFormat
  | some mp => (convert_magicpod_to_xray mp summary).mapError .conv

inductive Event where
  | networkAuth
  | fileRead
  | networkImport
deriving Repr, DecidableEq

def isNetworkEvent : Event → Bool
  | .networkAuth => true
  | .networkImport => true
  | .fileRead => false

/-- Ordered side effects of one `__main__` run with credentials present:
the authentication request is issued by the importer's constructor
(line 126) before the input file is opened (line 127); the import
request is issued only after a successful conversion (line 132). -/
def mainTrace (w : World) (summary : Option String) : List Event :=
  [Event.networkAuth] ++ [Event.fileRead] ++
    match convertFromWorld w summary with
    | .error _ => []
    | .ok _ => [Event.networkImport]

/-! Spec-side readings of the test-identity resolver, for comparison
with `extract_test_key`.  The spec describes the candidate as "the
substring after the last `[`", computed here by direct recursion rather
than through `split`. -/

/-- Suffix of `l` strictly after the last occurrence of `c`; the whole
list when `c` does not occur. -/
def afterLastSpec (c : Char) : List Char → List Char
  | [] => []
  | a :: t =>
    if t.contains c then afterLastSpec c t
    else if a == c then t
    else a :: afterLastSpec c t

/-- Resolver exactly as the claim words it: candidate is the substring
after the last opening bracket with one trailing `]` stripped. -/
def claimTestKey (test_name : String) : Option String :=
  if strIn "[" test_name && strIn "]" test_name then
    let after := afterLastSpec '[' test_name.toList
    let candidate :=
      String.mk (if after.getLast? == some ']' then after.dropLast else after)
    if strIn "-" candidate then some candidate else none
  else none

/-- Resolver as the amended claim words it: candidate is the substring
after the last opening bracket with all leading and trailing `]`
characters removed. -/
def amendedTestKey (test_name : String) : Option String :=
  if strIn "[" test_name && strIn "]" test_name then
    let candidate := String.mk (stripBr (afterLastSpec '[' test_name.toList))
    if strIn "-" candidate then some candidate else none
  else none

/-! Sample inputs used by witnesses. -/

def sampleResultTracked : ResultRecord :=
  { status := some "succeeded",
    test_case := some { name := some "Login [PROJ-12]" } }

def sampleResultInline : ResultRecord :=
  { status := some "failed",
    test_case := some { name := some "Smoke [nohyphen]" } }

def sampleReport : Report :=
  { url := some "https://magicpod.example/batch/1",
    test_cases := some
      { details := some
          [{ results := some [sampleResultTracked, sampleResultInline] }] } }

def sampleEntryInline : TestEntry :=
  { status := "FAILED",
    comment := "Imported from MagicPod. Original test: Smoke [nohyphen]",
    testKey := none,
    testInfo := some { summary := "Smoke [nohyphen]", type := "Manual" } }

def sampleExecution : Execution :=
  { info :=
      { summary := "MagicPod Batch Run: https://magicpod.example/batch/1",
        description :=
          "Imported automatically from MagicPod. \n MagicPod URL: https://magicpod.example/batch/1" },
    tests :=
      [{ status := "PASSED",
         comment := "Imported from MagicPod. Original test: Login [PROJ-12]",
         testKey := some "PROJ-12",
         testInfo := none },
       sampleEntryInline] }

/-- Concatenation of a list of lists, in order. -/
def joinAll {α : Type} : List (List α) → List α
  | [] => []
  | l :: ls => l ++ joinAll ls

/-! Helper lemmas -/

theorem splitOnChar_ne_nil (c : Char) (l : List Char) :
    splitOnChar c l ≠ [] := by
  cases l with
  | nil => simp [splitOnChar]
  | cons a t =>
    simp only [splitOnChar]
    by_cases h : a == c
    · simp [h]
    · simp only [h]
      cases splitOnChar c t <;> simp

theorem splitOnChar_of_not_contains {c : Char} {l : List Char}
    (h : l.contains c = false) : splitOnChar c l = [l] := by
  induction l with
  | nil => rfl
  | cons a t ih =>
    simp only [List.contains_cons, Bool.or_eq_false_iff] at h
    have hac : (a == c) = false := by
      cases hb : a == c
      · rfl
      · exact absurd (beq_iff_eq.mp hb).symm (by simpa using h.1)
    simp [splitOnChar, hac, ih h.2]

theorem splitOnChar_length_of_contains {c : Char} {l : List Char}
    (h : l.contains c = true) : 2 ≤ (splitOnChar c l).length := by
  induction l with
  | nil => simp [List.contains] at h
  | cons a t ih =>
    simp only [splitOnChar]
    by_cases hac : a == c
    · have := splitOnChar_ne_nil c t
      have hlen : 1 ≤ (splitOnChar c t).length := by
        cases hsp : splitOnChar c t with
        | nil => exact absurd hsp this
        | cons x xs => simp
      simp only [hac, if_pos, List.length_cons]
      omega
    · have hct : t.contains c = true := by
        simp only [List.contains_cons] at h
        rcases Bool.or_eq_true_iff.mp h with h1 | h2
        · exact absurd (beq_iff_eq.mp h1).symm (by simpa using hac)
        · exact h2
      have h2 := ih hct
      simp only [hac, if_neg, Bool.false_eq_true, not_false_iff, if_false]
      cases hsp : splitOnChar c t with
      | nil => exact absurd hsp (splitOnChar_ne_nil c t)
      | cons x xs =>
        rw [hsp] at h2
        simpa using h2

theorem afterLastSpec_of_not_contains {c : Char} {l : List Char}
    (h : l.contains c = false) : afterLastSpec c l = l := by
  induction l with
  | nil => rfl
  | cons a t ih =>
    simp only [List.contains_cons, Bool.or_eq_false_iff] at h
    have hac : (a == c) = false := by
      cases hb : a == c
      · rfl
      · exact absurd (beq_iff_eq.mp hb).symm (by simpa using h.1)
    simp only [afterLastSpec, h.2, hac, Bool.false_eq_true, if_false]
    rw [ih h.2]

theorem splitLast_cons (c a : Char) (t : List Char) :
    splitLast c (a :: t) =
      if a == c then splitLast c t
      else if t.contains c then splitLast c t else a :: t := by
  by_cases hac : a == c
  · simp only [splitLast, splitOnChar, hac, if_pos, if_true]
    obtain ⟨x, xs, hr⟩ :=
      List.exists_cons_of_ne_nil (splitOnChar_ne_nil c t)
    rw [hr, List.getLast?_cons_cons]
  · have hacb : (a == c) = false := by
      cases hb : a == c
      · rfl
      · exact absurd hb (by simpa using hac)
    by_cases hct : t.contains c
    · obtain ⟨x, xs, hr⟩ :=
        List.exists_cons_of_ne_nil (splitOnChar_ne_nil c t)
      have hlen := splitOnChar_length_of_contains hct
      rw [hr] at hlen
      obtain ⟨y, ys, hxs⟩ : ∃ y ys, xs = y :: ys := by
        cases xs with
        | nil => simp at hlen
        | cons y ys => exact ⟨y, ys, rfl⟩
      simp only [splitLast, splitOnChar, hacb, Bool.false_eq_true, if_false,
        hr, hxs, hct, if_true, List.getLast?_cons_cons]
    · have hctb : t.contains c = false := by
        cases hb : t.contains c
        · rfl
        · exact absurd hb hct
      simp only [splitLast, splitOnChar, hacb, Bool.false_eq_true, if_false,
        hctb, splitOnChar_of_not_contains hctb]
      rfl

theorem splitLast_eq_afterLastSpec (c : Char) (l : List Char) :
    splitLast c l = afterLastSpec c l := by
  induction l with
  | nil => rfl
  | cons a t ih =>
    rw [splitLast_cons]
    by_cases hac : a == c
    · by_cases hct : t.contains c
      · simp only [afterLastSpec, hac, hct, if_true, ih]
      · have hctb : t.contains c = false := by
          cases hb : t.contains c
          · rfl
          · exact absurd hb hct
        simp only [afterLastSpec, hac, hctb, Bool.false_eq_true, if_false,
          if_true, ih, afterLastSpec_of_not_contains hctb]
    · have hacb : (a == c) = false := by
        cases hb : a == c
        · rfl
        · exact absurd hb (by simpa using hac)
      by_cases hct : t.contains c
      · simp only [afterLastSpec, hacb, hct, Bool.false_eq_true, if_false,
          if_true, ih]
      · have hctb : t.contains c = false := by
          cases hb : t.contains c
          · rfl
          · exact absurd hb hct
        simp only [afterLastSpec, hacb, hctb, Bool.false_eq_true, if_false,
          afterLastSpec_of_not_contains hctb]

theorem foldl_append_entries (rs : List ResultRecord)
    (acc : List TestEntry) :
    rs.foldl (fun acc2 result => acc2 ++ [mkTestEntry result]) acc
      = acc ++ rs.map mkTestEntry := by
  induction rs generalizing acc with
  | nil => simp
  | cons r rs ih => simp [ih, List.append_assoc]

theorem buildTests_foldl (details : List DetailGroup)
    (acc : List TestEntry) :
    details.foldl
        (fun acc detail =>
          (detail.results.getD []).foldl
            (fun acc2 result => acc2 ++ [mkTestEntry result]) acc) acc
      = acc ++ joinAll (details.map
          (fun d => (d.results.getD []).map mkTestEntry)) := by
  induction details generalizing acc with
  | nil => simp [joinAll]
  | cons d ds ih =>
    rw [List.foldl_cons, ih, foldl_append_entries]
    simp [joinAll, List.append_assoc]

theorem buildTests_eq (details : List DetailGroup) :
    buildTests details
      = joinAll (details.map
          (fun d => (d.results.getD []).map mkTestEntry)) := by
  simpa using buildTests_foldl details []

theorem mem_joinAll {α : Type} {e : α} {L : List (List α)} :
    e ∈ joinAll L ↔ ∃ l ∈ L, e ∈ l := by
  induction L with
  | nil => simp [joinAll]
  | cons l L ih => simp [joinAll, List.mem_append, ih]

theorem mem_buildTests {details : List DetailGroup} {e : TestEntry}
    (he : e ∈ buildTests details) : ∃ r, e = mkTestEntry r := by
  rw [buildTests_eq] at he
  obtain ⟨l, hl, hel⟩ := mem_joinAll.mp he
  obtain ⟨d, _, rfl⟩ := List.mem_map.mp hl
  obtain ⟨r, _, rfl⟩ := List.mem_map.mp hel
  exact ⟨r, rfl⟩

theorem mkTestEntry_shape (r : ResultRecord) :
    (mkTestEntry r).testKey.isSome = (mkTestEntry r).testInfo.isNone
    ∧ ∀ ti, (mkTestEntry r).testInfo = some ti →
        ti.type = "Manual"
        ∧ (mkTestEntry r).comment
          = "Imported from MagicPod. Original test: " ++ ti.summary := by
  cases h : extract_test_key (testNameOf r) with
  | none =>
    refine ⟨by simp [mkTestEntry, h], ?_⟩
    intro ti hti
    simp only [mkTestEntry, h] at hti ⊢
    cases hti
    exact ⟨rfl, rfl⟩
  | some k =>
    refine ⟨by simp [mkTestEntry, h], ?_⟩
    intro ti hti
    simp only [mkTestEntry, h] at hti
    simp at hti

theorem convert_ok_tests {mp : Report} {summary : Option String}
    {ex : Execution}
    (hok : convert_magicpod_to_xray mp summary = .ok ex) :
    ex.tests = buildTests (detailsOf mp) := by
  simp only [convert_magicpod_to_xray] at hok
  split at hok
  · split at hok
    · exact absurd hok (by simp)
    · injection hok with h
      rw [← h]
  · exact absurd hok (by simp)

theorem default_summary_ne_empty (u : String) :
    ("MagicPod Batch Run: " ++ u) ≠ "" := by
  intro h
  have h2 := congrArg String.length h
  rw [String.length_append] at h2
  have h3 : "MagicPod Batch Run: ".length = 20 := rfl
  have h4 : "".length = 0 := rfl
  rw [h3, h4] at h2
  omega

/-! Claim theorems -/

/-- C1 (code bug evaluated): contrary to the claim that every status
string not case-insensitively equal to "succeeded"/"failed"/"skipped"
maps to "TODO", the empty string and an absent status both map to
"PASSED", because `mp_status in ("succeeded")` is Python substring
containment in the string "succeeded", not membership in a tuple. -/
theorem map_status_empty_passes :
    map_status (some "") = "PASSED" ∧ map_status none = "PASSED" :=
  ⟨rfl, rfl⟩

/-- C2 (code bug evaluated): contrary to the claim that a caller-supplied
non-empty summary yields a document with that summary and a defined
description, the conversion raises an unbound-local error on
`description`, which is only ever assigned inside the `if not summary:`
branch. -/
theorem convert_override_unbound_description :
    convert_magicpod_to_xray sampleReport (some "My Summary")
      = .error (.unboundLocal "description") := rfl

/-- C3 counterexample: on a run whose input file fails to read or parse,
the trace of `__main__` nevertheless contains a network call (the
authentication request issued by the importer constructor on line 126,
before line 127 reads the file), refuting "aborts before any network
call is made". -/
theorem main_network_call_despite_failed_read :
    (World.mk none 0).fileContent = none
    ∧ ¬ ((mainTrace ⟨none, 0⟩ none).filter isNetworkEvent = []) := by
  constructor
  · rfl
  · decide

/-- C3 (amended): whenever the source report file is missing, unreadable
or not parseable as JSON, the invocation aborts before the import
request is made — no import network call precedes the successful read
and parse of the input file — although the authentication request has
already been issued. -/
theorem main_no_import_after_failed_read (w : World)
    (summary : Option String) (h : w.fileContent = none) :
    Event.networkImport ∉ mainTrace w summary
      ∧ Event.networkAuth ∈ mainTrace w summary := by
  simp [mainTrace, convertFromWorld, h]

/-- Witness for C3's amended theorem at a concrete world. -/
theorem main_no_import_after_failed_read_witness :
    (World.mk none 7).fileContent = none
    ∧ (Event.networkImport ∉ mainTrace ⟨none, 7⟩ none
       ∧ Event.networkAuth ∈ mainTrace ⟨none, 7⟩ none) :=
  ⟨rfl, main_no_import_after_failed_read ⟨none, 7⟩ none rfl⟩

/-- C4 counterexample: on the name "[x-]]" the resolver of the code
strips every leading and trailing `]` from the piece after the last `[`
(Python `strip("]")`), yielding key "x-", while the claim's candidate —
the substring after the last `[` with one trailing `]` stripped — is
"x-]"; so the claim's description of the yielded key is false. -/
theorem extract_test_key_strip_counterexample :
    extract_test_key "[x-]]" = some "x-"
    ∧ claimTestKey "[x-]]" = some "x-]"
    ∧ extract_test_key "[x-]]" ≠ claimTestKey "[x-]]" := by
  refine ⟨rfl, rfl, ?_⟩
  decide

/-- C4 (amended): a testKey is yielded exactly when the name contains
both a `[` and a `]` and the substring after the last `[`, with all
leading and trailing `]` characters removed, contains a `-`; the key is
that fully stripped candidate.  In particular "Login [PROJ-12]" yields
"PROJ-12" and "Smoke [nohyphen]" yields none. -/
theorem extract_test_key_amended :
    (∀ test_name : String,
        extract_test_key test_name = amendedTestKey test_name)
    ∧ extract_test_key "Login [PROJ-12]" = some "PROJ-12"
    ∧ extract_test_key "Smoke [nohyphen]" = none := by
  refine ⟨?_, rfl, rfl⟩
  intro test_name
  simp only [extract_test_key, amendedTestKey, splitLast_eq_afterLastSpec]

/-- C5: for every source report whose `url` is present (so that the
no-override conversion succeeds), the `tests` sequence of the produced
execution document is exactly the concatenation, group by group in
order, of one entry per source result record in order — no filtering,
no deduplication. -/
theorem convert_tests_one_entry_per_record (u : String)
    (tcs : Option TestCases) :
    (convert_magicpod_to_xray { url := some u, test_cases := tcs }
        none).map Execution.tests
      = Except.ok (joinAll
          ((detailsOf { url := some u, test_cases := tcs }).map
            (fun d => (d.results.getD []).map mkTestEntry))) := by
  simp only [convert_magicpod_to_xray, Except.map, buildTests_eq]
  rfl

/-- C6: every test entry of a successfully converted document carries
exactly one of `testKey` and `testInfo` (one is present precisely when
the other is absent), and when `testInfo` is present its type is
"Manual" and its summary is the original test name — the same name the
fixed comment template embeds. -/
theorem test_entries_key_xor_info (mp : Report) (summary : Option String)
    (ex : Execution)
    (hok : convert_magicpod_to_xray mp summary = .ok ex) :
    ∀ e ∈ ex.tests,
      e.testKey.isSome = e.testInfo.isNone
      ∧ ∀ ti, e.testInfo = some ti →
          ti.type = "Manual"
          ∧ e.comment
            = "Imported from MagicPod. Original test: " ++ ti.summary := by
  intro e he
  rw [convert_ok_tests hok] at he
  obtain ⟨r, rfl⟩ := mem_buildTests he
  exact mkTestEntry_shape r

/-- Witness for C6 at a concrete report and the inline-metadata entry of
its converted document. -/
theorem test_entries_key_xor_info_witness :
    (convert_magicpod_to_xray sampleReport none
        = Except.ok sampleExecution)
    ∧ sampleEntryInline ∈ sampleExecution.tests
    ∧ (sampleEntryInline.testKey.isSome = sampleEntryInline.testInfo.isNone
       ∧ ∀ ti, sampleEntryInline.testInfo = some ti →
           ti.type = "Manual"
           ∧ sampleEntryInline.comment
             = "Imported from MagicPod. Original test: " ++ ti.summary) :=
  ⟨rfl, by decide,
    test_entries_key_xor_info sampleReport none sampleExecution rfl
      sampleEntryInline (by decide)⟩

/-- C7: any status whose lower-casing is "succeeded" maps to PASSED, any
whose lower-casing is "failed" maps to FAILED, and any whose
lower-casing is "skipped" maps to TODO. -/
theorem map_status_known_labels (s₁ s₂ s₃ : String)
    (h₁ : pyLower s₁ = "succeeded") (h₂ : pyLower s₂ = "failed")
    (h₃ : pyLower s₃ = "skipped") :
    map_status (some s₁) = "PASSED"
    ∧ map_status (some s₂) = "FAILED"
    ∧ map_status (some s₃) = "TODO" := by
  refine ⟨?_, ?_, ?_⟩ <;>
    simp only [map_status, Option.getD_some]
  · simp only [h₁]
    decide
  · simp only [h₂]
    decide
  · simp only [h₃]
    decide

/-- Witness for C7 at the three concrete casings of the known labels. -/
theorem map_status_known_labels_witness :
    (pyLower "SUCCEEDED" = "succeeded")
    ∧ (pyLower "Failed" = "failed")
    ∧ (pyLower "skipped" = "skipped")
    ∧ (map_status (some "SUCCEEDED") = "PASSED"
       ∧ map_status (some "Failed") = "FAILED"
       ∧ map_status (some "skipped") = "TODO") :=
  ⟨rfl, rfl, rfl,
    map_status_known_labels "SUCCEEDED" "Failed" "skipped" rfl rfl rfl⟩

/-- C8: a report missing `test_cases`, or whose `test_cases` lacks
`details`, converts (without error, in the no-override path) to a
document with an empty `tests` sequence and a non-empty `info.summary`;
and a result record whose nested `test_case` is absent or lacks a name
gets the placeholder name "Unnamed Test". -/
theorem convert_missing_fields (u : String) (st : Option String) :
    (∃ e, convert_magicpod_to_xray
            { url := some u, test_cases := none } none = .ok e
          ∧ e.tests = [] ∧ e.info.summary ≠ "")
    ∧ (∃ e, convert_magicpod_to_xray
              { url := some u, test_cases := some { details := none } }
              none = .ok e
            ∧ e.tests = [] ∧ e.info.summary ≠ "")
    ∧ testNameOf { status := st, test_case := some { name := none } }
        = "Unnamed Test"
    ∧ testNameOf { status := st, test_case := none } = "Unnamed Test" := by
  refine ⟨⟨_, rfl, rfl, default_summary_ne_empty u⟩,
    ⟨_, rfl, rfl, default_summary_ne_empty u⟩, rfl, rfl⟩

/-- C9: the conversion with no caller-supplied summary is a function of
the input file's content alone — two worlds agreeing on the parsed file
content (but with arbitrary, possibly different, clock values) produce
identical conversion results, info and tests included. -/
theorem convert_world_deterministic (w₁ w₂ : World)
    (h : w₁.fileContent = w₂.fileContent) :
    convertFromWorld w₁ none = convertFromWorld w₂ none := by
  unfold convertFromWorld
  rw [h]

/-- Witness for C9 at two worlds with the same file content and distinct
clock values. -/
theorem convert_world_deterministic_witness :
    (World.mk (some sampleReport) 0).fileContent
      = (World.mk (some sampleReport) 98765).fileContent
    ∧ convertFromWorld ⟨some sampleReport, 0⟩ none
        = convertFromWorld ⟨some sampleReport, 98765⟩ none :=
  ⟨rfl,
    convert_world_deterministic ⟨some sampleReport, 0⟩
      ⟨some sampleReport, 98765⟩ rfl⟩

/-- C10: a parsed report with no top-level `url`, converted with no
caller-supplied summary, fails with a key-lookup error on "url" instead
of producing an execution document, whatever its `test_cases` hold. -/
theorem convert_missing_url_keyError (tcs : Option TestCases) :
    convert_magicpod_to_xray { url := none, test_cases := tcs } none
      = .error (.keyError "url") := rfl

end XrayImport
